import Mathlib

/-!
Shallow embedding of the schema resolution and validation engine of
vscode-jsonatlas (src/schemaValidator.ts).  JSON values are modelled by
`JsVal` (with an explicit `undefined` constructor for the JavaScript
`undefined` that out-of-range array access produces); JavaScript strings
are Lean `String`s manipulated through their character lists; JavaScript
numbers that the engine uses (pointer segments, array indices, HTTP
status codes) are modelled as exact integers — faithful to the IEEE
doubles of the source for every magnitude below 2^53, which covers all
pointer and index arithmetic the engine performs.
-/

namespace JsonAtlas

/-- A JSON value as JavaScript sees it.  `undefined` models the JavaScript
`undefined` produced by out-of-bounds array indexing; ordinary JSON
parsing never produces it.  Object fields keep the source order of the
schema text, which is the iteration order of `Object.keys`. -/
inductive JsVal where
  | null : JsVal
  | undefined : JsVal
  | bool (b : Bool) : JsVal
  | num (n : Int) : JsVal
  | str (s : String) : JsVal
  | arr (xs : List JsVal) : JsVal
  | obj (fields : List (String × JsVal)) : JsVal

/-- First binding of a key in an object's field list; `none` models the
JavaScript `undefined` of a missing property (`hasOwnProperty` false). -/
def getProp : List (String × JsVal) → String → Option JsVal
  | [], _ => none
  | (k, v) :: rest, key => if k = key then some v else getProp rest key

/-- Source `isRecord`: a non-null object that is not an array. -/
def isRecord : JsVal → Bool
  | .obj _ => true
  | _ => false

/-- Source `isSchemaLike`: a boolean or a record. -/
def isSchemaLike : JsVal → Bool
  | .bool _ => true
  | .obj _ => true
  | _ => false

/-- JavaScript `xs[i]` for an integer index: the element when `i` is in
range, `undefined` otherwise. -/
def jsIndexGet (xs : List JsVal) (i : Int) : JsVal :=
  if 0 ≤ i ∧ i.toNat < xs.length then xs.getD i.toNat .null else .undefined

/-! ### Decimal numerals (JavaScript `String(n)` and `Number(s)`) -/

/-- The character for a decimal digit value below ten. -/
def digitChar (d : Nat) : Char := Char.ofNat (48 + d)

/-- Big-endian decimal digits of `n`, empty for zero; the first argument
is structural fuel bounded below by `n`. -/
def natCharsAux : Nat → Nat → List Char
  | 0, _ => []
  | fuel + 1, n => if n = 0 then [] else natCharsAux fuel (n / 10) ++ [digitChar (n % 10)]

/-- Decimal digits of `n` (JavaScript `String(n)` for a natural). -/
def natChars (n : Nat) : List Char := if n = 0 then ['0'] else natCharsAux n n

/-- JavaScript `String(n)` for a natural number. -/
def jsNatToString (n : Nat) : String := String.mk (natChars n)

/-- JavaScript `String(i)` for an integer. -/
def jsIntToString : Int → String
  | .ofNat m => jsNatToString m
  | .negSucc m => "-" ++ jsNatToString (m + 1)

/-- Numeric value of a decimal digit character, if it is one. -/
def digitVal? (c : Char) : Option Nat :=
  if 48 ≤ c.toNat ∧ c.toNat ≤ 57 then some (c.toNat - 48) else none

/-- Fold a digit string into its value; any non-digit aborts. -/
def valDigits (cs : List Char) : Option Nat :=
  cs.foldl (fun acc c => acc.bind fun a => (digitVal? c).map fun d => a * 10 + d) (some 0)

/-- Parse a non-empty all-digit string. -/
def parseDigits? : List Char → Option Nat
  | [] => none
  | cs => valDigits cs

/-- Parse an optionally negated decimal integer literal (the fragment of
JavaScript `Number(s)` relevant to integer-looking pointer segments;
exact integer arithmetic models the doubles faithfully below 2^53). -/
def parseJsInt? : List Char → Option Int
  | [] => none
  | c :: rest =>
    if c = '-' then (parseDigits? rest).map fun n => -(n : Int)
    else (parseDigits? (c :: rest)).map Int.ofNat

/-- The check `Number.isInteger(numeric) && String(numeric) === segment`
of `pointerToPath`: the integer whose canonical decimal string is `s`,
if there is one. -/
def jsIntLiteral? (s : String) : Option Int :=
  match parseJsInt? s.data with
  | some n => if jsIntToString n = s then some n else none
  | none => none

/-! ### Pointer segment escaping and splitting -/

/-- Escaping of one pointer segment: `~` becomes `~0`, `/` becomes `~1`
(the source applies the two global replaces sequentially; since `~0`
contains no `/`, the effect is this single pass). -/
def escapeSeg : List Char → List Char
  | [] => []
  | c :: rest =>
    if c = '~' then '~' :: '0' :: escapeSeg rest
    else if c = '/' then '~' :: '1' :: escapeSeg rest
    else c :: escapeSeg rest

/-- The single left-to-right pass of the global regex `/~[01]/g`:
`~0` becomes `~`, `~1` becomes `/`, everything else is copied. -/
def unescapeSeg : List Char → List Char
  | [] => []
  | c :: rest =>
    if c = '~' then
      match rest with
      | [] => [c]
      | c2 :: rest2 =>
        if c2 = '0' then '~' :: unescapeSeg rest2
        else if c2 = '1' then '/' :: unescapeSeg rest2
        else c :: unescapeSeg (c2 :: rest2)
    else c :: unescapeSeg rest

/-- JavaScript `s.split('/')` (keeps empty pieces, `"" ↦ [""]`). -/
def splitSlash : List Char → List (List Char)
  | [] => [[]]
  | c :: rest =>
    if c = '/' then [] :: splitSlash rest
    else
      match splitSlash rest with
      | s :: ss => (c :: s) :: ss
      | [] => [[c]]

/-- Join pieces with `/` (JavaScript `Array.prototype.join('/')`). -/
def joinSlash : List (List Char) → List Char
  | [] => []
  | [s] => s
  | s :: rest => s ++ '/' :: joinSlash rest

/-- One segment of a JSON path: a property name or an array index. -/
inductive JsonSeg where
  | str (s : String) : JsonSeg
  | idx (i : Int) : JsonSeg
deriving DecidableEq

/-- JavaScript `String(segment)` for a path segment. -/
def segToString : JsonSeg → String
  | .str s => s
  | .idx i => jsIntToString i

/-- The per-segment work of `pointerToPath`: unescape, then classify an
exact integer literal as an array index (the source performs the two
steps as two consecutive `map`s; their composition is this function). -/
def decodePointerSegment (seg : List Char) : JsonSeg :=
  match jsIntLiteral? (String.mk (unescapeSeg seg)) with
  | some n => .idx n
  | none => .str (String.mk (unescapeSeg seg))

/-- Source `pointerToPath`: split on `/`, drop the first piece, unescape
each remaining piece, and classify exact integer literals as indices. -/
def pointerToPath (pointer : String) : List JsonSeg :=
  if pointer = "" then []
  else ((splitSlash pointer.data).tail).map decodePointerSegment

/-- Source `pointerToSegments`: strip a `#` or `#/` prefix, then split
and unescape; `""` and `"#"` denote the root. -/
def pointerToSegments (pointer : String) : List String :=
  if pointer = "" ∨ pointer = "#" then []
  else
    let trimmed : List Char :=
      match pointer.data with
      | '#' :: '/' :: rest => rest
      | '#' :: rest => rest
      | rest => rest
    if trimmed = [] then []
    else (splitSlash trimmed).map fun seg => String.mk (unescapeSeg seg)

/-- Source `escapePointerSegment`. -/
def escapePointerSegment (s : String) : String := String.mk (escapeSeg s.data)

/-- Source `buildPointerFromSegments`: `#` for the empty path, otherwise
`#/` followed by the escaped segments joined with `/`. -/
def buildPointerFromSegments (segments : List String) : String :=
  if segments = [] then "#"
  else "#/" ++ String.mk (joinSlash (segments.map fun s => (escapePointerSegment s).data))

/-- Source `joinPointer`: decode the pointer, append the stringified
segments, re-encode — never raw concatenation. -/
def joinPointer (pointer : String) (segments : List JsonSeg) : String :=
  buildPointerFromSegments (pointerToSegments pointer ++ segments.map segToString)

/-! ### Schema values: sizes and reference strings -/

mutual

/-- Structural size of a value; fuels the resolver's recursion. -/
def jsSize : JsVal → Nat
  | .obj fields => 1 + jsSizeFields fields
  | .arr xs => 1 + jsSizeList xs
  | _ => 1

/-- Structural size of an object's field list. -/
def jsSizeFields : List (String × JsVal) → Nat
  | [] => 0
  | (_, v) :: rest => 1 + jsSize v + jsSizeFields rest

/-- Structural size of an array's element list. -/
def jsSizeList : List JsVal → Nat
  | [] => 0
  | v :: rest => 1 + jsSize v + jsSizeList rest

end

mutual

/-- Every string that occurs as the value of a `$ref` field anywhere in
the value; bounds the `visited` set of dereferencing. -/
def refStrings : JsVal → List String
  | .obj fields => refStringsFields fields
  | .arr xs => refStringsList xs
  | _ => []

/-- `refStrings` over an object's field list. -/
def refStringsFields : List (String × JsVal) → List String
  | [] => []
  | (k, v) :: rest =>
    (if k = "$ref" then (match v with | .str s => [s] | _ => []) else [])
      ++ refStrings v ++ refStringsFields rest

/-- `refStrings` over an array's element list. -/
def refStringsList : List JsVal → List String
  | [] => []
  | v :: rest => refStrings v ++ refStringsList rest

end

/-- JavaScript `s.startsWith(p)`. -/
def strStartsWith (s p : String) : Bool := p.data.isPrefixOf s.data

/-- Walk pointer segments down a value (the loop of `getSchemaAtPointer`):
arrays are indexed by `Number(segment)` when it is an in-range integer,
objects by own-property lookup; anything else is `undefined`. -/
def pointerWalk : JsVal → List String → Option JsVal
  | cur, [] => some cur
  | cur, seg :: rest =>
    match cur with
    | .arr xs =>
      match parseJsInt? seg.data with
      | some i => if 0 ≤ i ∧ i.toNat < xs.length then pointerWalk (xs.getD i.toNat .null) rest else none
      | none => none
    | .obj fields =>
      match getProp fields seg with
      | some v => pointerWalk v rest
      | none => none
    | _ => none

/-- Source `getSchemaAtPointer`. -/
def getSchemaAtPointer (root : JsVal) (pointer : String) : Option JsVal :=
  pointerWalk root (pointerToSegments pointer)

/-! ### Dereferencing (`dereferenceSchema`) -/

/-- The candidate strings the dereferencing loop can ever add to its
`visited` set: `$ref` strings of the starting schema and of the root. -/
def refCandidates (root schema : JsVal) : List String :=
  (refStrings schema ++ refStrings root).dedup

/-- The resolved subschema and its canonical pointer. -/
structure SchemaResolution where
  schema : JsVal
  pointer : String

/-- What one iteration of the dereferencing `while` loop decides. -/
inductive DerefOutcome where
  | stop : SchemaResolution → DerefOutcome
  | follow : JsVal → String → DerefOutcome

/-- One iteration of the `dereferenceSchema` loop: if the current value
is a record with a string `$ref` that starts with `#`, is not yet in
`visited` and resolves against the root, follow it; otherwise stop and
return the current value (so a revisited pointer, an external reference
or a missing target is returned as a leaf). -/
def derefStep (root cur : JsVal) (ptr : String) (visited : List String) : DerefOutcome :=
  match cur with
  | .obj fields =>
    match getProp fields "$ref" with
    | some (.str ref) =>
      if strStartsWith ref "#" then
        if (if ref = "#" then "#" else ref) ∈ visited then .stop ⟨cur, ptr⟩
        else
          match getSchemaAtPointer root (if ref = "#" then "#" else ref) with
          | some target => .follow target (if ref = "#" then "#" else ref)
          | none => .stop ⟨cur, ptr⟩
      else .stop ⟨cur, ptr⟩
    | _ => .stop ⟨cur, ptr⟩
  | _ => .stop ⟨cur, ptr⟩

/-- The dereferencing loop, with structural fuel; a followed pointer is
added to `visited`.  `derefGo_stable` below proves the fuel chosen by
`dereferenceSchema` is beyond the loop's own bound, so exhaustion is
unreachable. -/
def derefGo (root : JsVal) : Nat → JsVal → String → List String → SchemaResolution
  | 0, cur, ptr, _ => ⟨cur, ptr⟩
  | fuel + 1, cur, ptr, visited =>
    match derefStep root cur ptr visited with
    | .stop res => res
    | .follow target normalized => derefGo root fuel target normalized (normalized :: visited)

/-- Source `dereferenceSchema(schema, pointer, info)`: follow same-document
`$ref` chains from `schema` against the root `info.schema`, with a
per-call visited set. -/
def dereferenceSchema (schema : JsVal) (pointer : String) (root : JsVal) : SchemaResolution :=
  if isRecord schema then derefGo root ((refCandidates root schema).length + 1) schema pointer []
  else ⟨schema, pointer⟩

/-! ### Path resolution (`resolvePropertySchema`, `resolveArraySchema`,
`resolveFromCompositeSchemas`) -/

/-- List elements paired with their position, starting at `i`. -/
def enumFrom {α : Type} : Nat → List α → List (Nat × α)
  | _, [] => []
  | i, x :: rest => (i, x) :: enumFrom (i + 1) rest

/-- A named field when its value is schema-like, as in the source's
`isSchemaLike(schema.additionalProperties)`-style guards. -/
def schemaLikeField (fields : List (String × JsVal)) (name : String) : Option JsVal :=
  (getProp fields name).bind fun v => if isSchemaLike v then some v else none

/-- Source `resolveFromCompositeSchemas`: search `allOf`, `anyOf`,
`oneOf` (keyword order, then array order), then `then`, then `else`,
recursing through the callback `r`; the first branch yielding a
resolution wins. -/
def compositeKw (r : JsVal → String → Option SchemaResolution)
    (fields : List (String × JsVal)) (pointer kw : String) : Option SchemaResolution :=
  match getProp fields kw with
  | some (.arr xs) =>
    (enumFrom 0 xs).findSome? fun p =>
      r p.2 (joinPointer pointer [.str kw, .str (jsNatToString p.1)])
  | _ => none

/-- See `compositeKw`; this is the full keyword chain of
`resolveFromCompositeSchemas`. -/
def resolveFromCompositeSchemas (r : JsVal → String → Option SchemaResolution)
    (fields : List (String × JsVal)) (pointer : String) : Option SchemaResolution :=
  compositeKw r fields pointer "allOf"
    <|> compositeKw r fields pointer "anyOf"
    <|> compositeKw r fields pointer "oneOf"
    <|> ((schemaLikeField fields "then").bind fun v => r v (joinPointer pointer [.str "then"]))
    <|> ((schemaLikeField fields "else").bind fun v => r v (joinPointer pointer [.str "else"]))

/-- One step of the resolver, parameterised by the recursive call `r`.
A property segment tries `properties` (own key), `patternProperties`
(first matching pattern in key order, via the host regex oracle `re`;
`none` models an invalid regex, which is skipped), `additionalProperties`,
`unevaluatedProperties`, then the composite keywords.  An index segment
tries `prefixItems`, tuple-form or single-schema `items`, `contains`,
`additionalItems`, `unevaluatedItems`, then the composite keywords.
Boolean schemas resolve to themselves; everything else fails. -/
def resolveStep (re : String → String → Option Bool)
    (r : JsVal → String → JsonSeg → Option SchemaResolution)
    (schema : JsVal) (pointer : String) (seg : JsonSeg) : Option SchemaResolution :=
  match schema, seg with
  | .bool b, _ => some ⟨.bool b, pointer⟩
  | .obj fields, .str key =>
    (match getProp fields "properties" with
      | some (.obj props) =>
        (getProp props key).map fun sub => ⟨sub, joinPointer pointer [.str "properties", .str key]⟩
      | _ => none)
    <|> (match getProp fields "patternProperties" with
      | some (.obj pats) =>
        pats.findSome? fun kv =>
          match re kv.1 key with
          | some true => some ⟨kv.2, joinPointer pointer [.str "patternProperties", .str kv.1]⟩
          | _ => none
      | _ => none)
    <|> ((schemaLikeField fields "additionalProperties").map fun v =>
          ⟨v, joinPointer pointer [.str "additionalProperties"]⟩)
    <|> ((schemaLikeField fields "unevaluatedProperties").map fun v =>
          ⟨v, joinPointer pointer [.str "unevaluatedProperties"]⟩)
    <|> resolveFromCompositeSchemas (fun v p => r v p (.str key)) fields pointer
  | .obj fields, .idx i =>
    (match getProp fields "prefixItems" with
      | some (.arr xs) =>
        if i < (xs.length : Int) then
          some ⟨jsIndexGet xs i, joinPointer pointer [.str "prefixItems", .str (jsIntToString i)]⟩
        else none
      | _ => none)
    <|> (match getProp fields "items" with
      | some (.arr xs) =>
        if i < (xs.length : Int) then
          some ⟨jsIndexGet xs i, joinPointer pointer [.str "items", .str (jsIntToString i)]⟩
        else none
      | some v => if isSchemaLike v then some ⟨v, joinPointer pointer [.str "items"]⟩ else none
      | none => none)
    <|> ((schemaLikeField fields "contains").map fun v => ⟨v, joinPointer pointer [.str "contains"]⟩)
    <|> ((schemaLikeField fields "additionalItems").map fun v =>
          ⟨v, joinPointer pointer [.str "additionalItems"]⟩)
    <|> ((schemaLikeField fields "unevaluatedItems").map fun v =>
          ⟨v, joinPointer pointer [.str "unevaluatedItems"]⟩)
    <|> resolveFromCompositeSchemas (fun v p => r v p (.idx i)) fields pointer
  | _, _ => none

/-- The resolver with structural fuel; `resolveSegGo_stable` below shows
any fuel at least `jsSize schema` gives the same result, so the fuel is
an upper bound on recursion depth, not part of the semantics. -/
def resolveSegGo (re : String → String → Option Bool) :
    Nat → JsVal → String → JsonSeg → Option SchemaResolution
  | 0, _, _, _ => none
  | fuel + 1, schema, pointer, seg => resolveStep re (resolveSegGo re fuel) schema pointer seg

/-- Source `resolvePropertySchema` (the `info` parameter of the source is
only threaded through and is dropped here). -/
def resolvePropertySchema (re : String → String → Option Bool)
    (schema : JsVal) (pointer key : String) : Option SchemaResolution :=
  resolveSegGo re (jsSize schema) schema pointer (.str key)

/-- Source `resolveArraySchema`. -/
def resolveArraySchema (re : String → String → Option Bool)
    (schema : JsVal) (pointer : String) (index : Int) : Option SchemaResolution :=
  resolveSegGo re (jsSize schema) schema pointer (.idx index)

/-- The engine's per-document schema record; only the parsed schema value
matters to resolution (the source also carries the uri, raw text, syntax
tree and pointer index, which serve the editor surface). -/
structure SchemaInfo where
  schema : JsVal

/-- The per-segment loop of `resolveSchemaForPath`: resolve one segment
(array or property form by the segment's type), then immediately
re-dereference before consuming the next segment. -/
def descendSegments (re : String → String → Option Bool) (root : JsVal) :
    SchemaResolution → List JsonSeg → Option SchemaResolution
  | state, [] => some state
  | state, seg :: rest =>
    match
      (match seg with
        | .idx i => resolveArraySchema re state.schema state.pointer i
        | .str s => resolvePropertySchema re state.schema state.pointer s) with
    | some next => descendSegments re root (dereferenceSchema next.schema next.pointer root) rest
    | none => none

/-- Source `resolveSchemaForPath`: a non-array (undefined) path is
normalised to the empty path, the root is dereferenced from pointer `#`,
and segments are consumed in order. -/
def resolveSchemaForPath (re : String → String → Option Bool)
    (info : SchemaInfo) (path : Option (List JsonSeg)) : Option SchemaResolution :=
  let normalizedPath := match path with | some l => l | none => []
  let state := dereferenceSchema info.schema "#" info.schema
  if normalizedPath.isEmpty then some state
  else descendSegments re info.schema state normalizedPath

/-- Source `resolveSchemaForJsonPath`: `none` when no `SchemaInfo` is
stored for the document, otherwise `resolveSchemaForPath`. -/
def resolveSchemaForJsonPath (re : String → String → Option Bool)
    (info : Option SchemaInfo) (path : Option (List JsonSeg)) : Option SchemaResolution :=
  match info with
  | none => none
  | some i => resolveSchemaForPath re i path

/-! ### De-duplicated warnings and the validator cache -/

/-- Source `warnOnce`: the set of already-shown messages, as a list, and
whether this call actually surfaced the message. -/
def warnOnce (warned : List String) (message : String) : List String × Bool :=
  if message ∈ warned then (warned, false) else (message :: warned, true)

/-- A validator-cache entry: the raw-text fingerprint of the schema it
was compiled from, and the compiled validator. -/
structure CacheEntry (V : Type) where
  fingerprint : String
  validator : V

/-- First binding of a key in an association list (`Map.get`). -/
def getAssoc {V : Type} : List (String × CacheEntry V) → String → Option (CacheEntry V)
  | [], _ => none
  | (k, e) :: rest, key => if k = key then some e else getAssoc rest key

/-- Replace or add a binding (`Map.set`). -/
def setAssoc {V : Type} : List (String × CacheEntry V) → String → CacheEntry V →
    List (String × CacheEntry V)
  | [], key, e => [(key, e)]
  | (k, e') :: rest, key, e =>
    if k = key then (key, e) :: rest else (k, e') :: setAssoc rest key e

/-- Remove a binding (`Map.delete`). -/
def eraseAssoc {V : Type} : List (String × CacheEntry V) → String →
    List (String × CacheEntry V)
  | [], _ => []
  | (k, e') :: rest, key => if k = key then rest else (k, e') :: eraseAssoc rest key

/-- Source `getValidator`: on a cache hit whose fingerprint matches the
freshly loaded text, return the cached validator; otherwise compile
(`compile` models `ajv.compile`, `Except.error` a thrown exception),
store or evict the entry, and warn once per distinct message on failure.
Returns the validator (if any), the new cache and the new warned set. -/
def getValidator {V : Type} (compile : JsVal → Except String V)
    (cache : List (String × CacheEntry V)) (warned : List String)
    (key : String) (schema : JsVal) (fingerprint : String) :
    Option V × List (String × CacheEntry V) × List String :=
  match getAssoc cache key with
  | some cached =>
    if cached.fingerprint = fingerprint then (some cached.validator, cache, warned)
    else
      match compile schema with
      | .ok v => (some v, setAssoc cache key ⟨fingerprint, v⟩, warned)
      | .error msg =>
        (none, eraseAssoc cache key, (warnOnce warned ("Invalid schema at " ++ key ++ ": " ++ msg)).1)
  | none =>
    match compile schema with
    | .ok v => (some v, setAssoc cache key ⟨fingerprint, v⟩, warned)
    | .error msg =>
      (none, eraseAssoc cache key, (warnOnce warned ("Invalid schema at " ++ key ++ ": " ++ msg)).1)

/-! ### Validation errors, insights and diagnostics -/

/-- Severity of an insight or diagnostic (vscode.DiagnosticSeverity). -/
inductive Severity where
  | error : Severity
  | warning : Severity
  | information : Severity
  | hint : Severity
deriving DecidableEq

/-- A raw validator error (ajv `ErrorObject`); optional fields model the
source's defensive `??` fallbacks, `params` is the error's parameter
object. -/
structure ErrorObject where
  keyword : Option String
  instancePath : Option String
  params : JsVal
  message : Option String

/-- `error.params?.name`: a parameter when `params` is an object. -/
def paramsProp (error : ErrorObject) (name : String) : Option JsVal :=
  match error.params with
  | .obj fields => getProp fields name
  | _ => none

/-- Lowercase hexadecimal digit. -/
def hexDigit (d : Nat) : Char :=
  if d < 10 then Char.ofNat (48 + d) else Char.ofNat (87 + d)

/-- Four-digit hexadecimal rendering for a `\u` escape. -/
def hex4 (n : Nat) : List Char :=
  [hexDigit (n / 4096 % 16), hexDigit (n / 256 % 16), hexDigit (n / 16 % 16), hexDigit (n % 16)]

/-- JSON string-content escaping as `JSON.stringify` performs it. -/
def escapeJsonChars : List Char → List Char
  | [] => []
  | c :: rest =>
    (if c = '"' then ['\\', '"']
     else if c = '\\' then ['\\', '\\']
     else if c = '\n' then ['\\', 'n']
     else if c = '\r' then ['\\', 'r']
     else if c = '\t' then ['\\', 't']
     else if c.toNat = 8 then ['\\', 'b']
     else if c.toNat = 12 then ['\\', 'f']
     else if c.toNat < 32 then '\\' :: 'u' :: hex4 c.toNat
     else [c]) ++ escapeJsonChars rest

/-- A double-quoted JSON string literal. -/
def quoteJson (s : String) : String := "\"" ++ String.mk (escapeJsonChars s.data) ++ "\""

mutual

/-- `JSON.stringify` (numbers are the engine's integer fragment; `undefined`
renders as the empty string, matching how `Array.prototype.join` shows
the `undefined` that `JSON.stringify` yields on it). -/
def jsonStringify : JsVal → String
  | .null => "null"
  | .undefined => ""
  | .bool true => "true"
  | .bool false => "false"
  | .num n => jsIntToString n
  | .str s => quoteJson s
  | .arr xs => "[" ++ jsonStringifyItems xs ++ "]"
  | .obj fields => "\x7b" ++ jsonStringifyFields fields ++ "\x7d"

/-- Comma-joined stringified array elements. -/
def jsonStringifyItems : List JsVal → String
  | [] => ""
  | [v] => jsonStringify v
  | v :: rest => jsonStringify v ++ "," ++ jsonStringifyItems rest

/-- Comma-joined stringified object members. -/
def jsonStringifyFields : List (String × JsVal) → String
  | [] => ""
  | [(k, v)] => quoteJson k ++ ":" ++ jsonStringify v
  | (k, v) :: rest => quoteJson k ++ ":" ++ jsonStringify v ++ "," ++ jsonStringifyFields rest

end

/-- JavaScript `strings.join(", ")`. -/
def joinCommaSpace : List String → String
  | [] => ""
  | [s] => s
  | s :: rest => s ++ ", " ++ joinCommaSpace rest

/-- Source `stringifyArray`: stringify and comma-join when the value is
an array, empty otherwise. -/
def stringifyArray (values : Option JsVal) : String :=
  match values with
  | some (.arr xs) => joinCommaSpace (xs.map jsonStringify)
  | _ => ""

/-- Source `formatErrorMessage`: special cases for `required` (with a
string `missingProperty` parameter) and `enum`; otherwise the
validator's own message or a fallback. -/
def formatErrorMessage (error : ErrorObject) : String :=
  match error.keyword, paramsProp error "missingProperty" with
  | some "required", some (.str missing) => "Missing required property: " ++ missing
  | _, _ =>
    if error.keyword = some "enum" then
      "Value must be one of: " ++ stringifyArray (paramsProp error "allowedValues")
    else (error.message).getD "Schema validation error"

/-- Source `SchemaInsight`. -/
structure SchemaInsight where
  id : String
  message : String
  pointer : String
  path : List JsonSeg
  severity : Severity
  keyword : String

/-- The loop body of `buildInsightsFromErrors`: the insight built from
one raw error, with warning severity exactly for the `required` and
`deprecated` keywords, and a `pointer::keyword::message`
de-duplication id. -/
def insightOfError (error : ErrorObject) : SchemaInsight :=
  { id := (error.instancePath).getD "" ++ "::" ++ (error.keyword).getD "schema" ++ "::"
      ++ formatErrorMessage error
    message := formatErrorMessage error
    pointer := (error.instancePath).getD ""
    path := pointerToPath ((error.instancePath).getD "")
    severity :=
      if (error.keyword).getD "schema" = "required" ∨ (error.keyword).getD "schema" = "deprecated"
      then Severity.warning else Severity.error
    keyword := (error.keyword).getD "schema" }

/-- Source `buildInsightsFromErrors`: one insight per raw error. -/
def buildInsightsFromErrors (errors : List ErrorObject) : List SchemaInsight :=
  errors.map insightOfError

/-- An editor diagnostic; the source also computes a source range from
the instance path and the document's syntax tree, which is editor
geometry and is omitted here. -/
structure Diagnostic where
  message : String
  severity : Severity
  source : String

/-- Source `createDiagnostic`: always severity Error and source
"JSON Schema". -/
def createDiagnostic (error : ErrorObject) : Diagnostic :=
  { message := formatErrorMessage error
    severity := Severity.error
    source := "JSON Schema" }

/-- The final mapping of `validate`: one diagnostic per raw error. -/
def validateDiagnostics (errors : List ErrorObject) : List Diagnostic :=
  errors.map createDiagnostic

/-! ### Schema source resolution -/

/-- Source `SchemaSource` (locations as strings). -/
inductive SchemaSource where
  | uri (uri : String) (cacheKey : String) : SchemaSource
  | inline (cacheKey : String) (schema : JsVal) (text : String) (virtualUri : String) : SchemaSource

/-- Source `getEmbeddedSchemaReference`: the first top-level `$schema`
property whose value is a string (a non-string `$schema` is skipped and
scanning continues). -/
def getEmbeddedSchemaReference (root : Option JsVal) : Option String :=
  match root with
  | some (.obj fields) =>
    fields.findSome? fun kv =>
      if kv.1 = "$schema" then
        match kv.2 with
        | .str s => some s
        | _ => none
      else none
  | _ => none

/-- The warning surfaced when no schema source resolves for a document;
it names the document, so de-duplication is per distinct document. -/
def noSchemaWarning (docFsPath : String) : String :=
  "JSON Atlas could not find a schema for " ++ docFsPath ++
    ". Use \"JSON Atlas: Associate Schema\" to pick one."

/-- Source `resolveSchemaSource`: try the embedded declaration, the
association store's assignment, the `json.schemas` configuration, then
the `jsonAtlas.schemas` configuration, first producer winning; with no
source, warn once per distinct document.  `resolveRef` models
`resolveReferenceUri` (the host's uri machinery); an empty reference
string is falsy in the source's guards and is skipped; the two
configuration resolvers are given by their results, since their
internals are host configuration plus glob matching. -/
def resolveSchemaSource (root : Option JsVal) (resolveRef : String → Option String)
    (assigned : Option String) (jsonConfigSource atlasSource : Option SchemaSource)
    (docUri docFsPath : String) (warned : List String) :
    Option SchemaSource × List String :=
  match ((getEmbeddedSchemaReference root).bind fun r =>
      if r = "" then none else (resolveRef r).map fun u => SchemaSource.uri u u)
    <|> (assigned.bind fun a =>
      if a = "" then none
      else (resolveRef a).map fun u => SchemaSource.uri u ("assignment:" ++ docUri))
    <|> jsonConfigSource
    <|> atlasSource with
  | some source => (some source, warned)
  | none => (none, (warnOnce warned (noSchemaWarning docFsPath)).1)

/-- The early returns of `validate`: when a pipeline stage yields
nothing (no schema source, or load failure), the pass produces no
diagnostics; otherwise the rest of the pipeline runs. -/
def pipelineStep {α : Type} (stage : Option α) (rest : α → List Diagnostic) : List Diagnostic :=
  match stage with
  | none => []
  | some x => rest x

/-! ### Remote fetch and schema loading -/

/-- An HTTP response as the fetch sees it: optional status code, the
`Location` header if any, and the body bytes. -/
structure HttpResponse where
  statusCode : Option Nat
  location : Option String
  body : List Nat

/-- Source `fetchRemoteSchema`, with the redirect allowance counted down
(the source counts `redirectCount` up to the cap of 3; `allowance` is
`3 - redirectCount`).  `world` models the network, `resolveRedirect`
the `Location`-header resolution against the current url (`none` models
an unparsable location).  A 3xx with a non-empty location (an empty
header string is falsy in the source's guard) and remaining allowance
is followed; any other non-2xx status (including a 3xx beyond the third
hop or without a location) fails with `HTTP <status>`. -/
def fetchRemoteSchemaGo (world : String → HttpResponse)
    (resolveRedirect : String → String → Option String) :
    Nat → String → Except String (List Nat)
  | allowance, url =>
    match allowance, (world url).statusCode, (world url).location with
    | remaining + 1, some s, some loc =>
      if s ≠ 0 ∧ 300 ≤ s ∧ s < 400 ∧ loc ≠ "" then
        match resolveRedirect url loc with
        | some redirected => fetchRemoteSchemaGo world resolveRedirect remaining redirected
        | none => .error ("Invalid redirect location: " ++ loc)
      else
        if s ≠ 0 ∧ (s < 200 ∨ 300 ≤ s) then .error ("HTTP " ++ jsNatToString s)
        else .ok (world url).body
    | _, some s, _ =>
      if s ≠ 0 ∧ (s < 200 ∨ 300 ≤ s) then .error ("HTTP " ++ jsNatToString s)
      else .ok (world url).body
    | _, none, _ => .ok (world url).body

/-- Source `fetchRemoteSchema` entered at `redirectCount = 0`. -/
def fetchRemoteSchema (world : String → HttpResponse)
    (resolveRedirect : String → String → Option String) (url : String) :
    Except String (List Nat) :=
  fetchRemoteSchemaGo world resolveRedirect 3 url

/-- Source `loadSchema` for a uri source: `attempt` is the read, decode
and `JSON.parse` sequence (schema value and raw text), `Except.error`
any thrown failure, including a failed remote fetch.  On failure the
document gets a once-per-message warning and no schema (the pass then
returns no diagnostics).  On success the raw text is the fingerprint. -/
def loadSchema (warned : List String) (uriStr : String)
    (attempt : Except String (JsVal × String)) :
    Option (JsVal × String × String) × List String :=
  match attempt with
  | .ok (schema, text) => (some (schema, text, text), warned)
  | .error e =>
    (none, (warnOnce warned ("Failed to load schema from " ++ uriStr ++ ": " ++ e)).1)

/-! ### Concrete schemas and errors used by the claims -/

/-- A regex oracle for concrete runs; the concrete schemas below carry
no `patternProperties`, so it is never consulted. -/
def noRegex : String → String → Option Bool := fun _ _ => none

/-- The subschema `{"type": "string"}`. -/
def exStringSchema : JsVal := .obj [("type", .str "string")]

/-- The subschema `{"type": "number"}`. -/
def exNumberSchema : JsVal := .obj [("type", .str "number")]

/-- The composite schema of the spec's test:
`{"allOf": [{"properties": {"x": ...string}}, {"properties": {"y": ...number}}]}`. -/
def exCompositeSchema : JsVal :=
  .obj [("allOf", .arr [
    .obj [("properties", .obj [("x", exStringSchema)])],
    .obj [("properties", .obj [("y", exNumberSchema)])]])]

/-- `anyOf` listed before `allOf` in the schema text; both branches
resolve `x`. -/
def exKeywordOrderSchema : JsVal :=
  .obj [
    ("anyOf", .arr [.obj [("properties", .obj [("x", exNumberSchema)])]]),
    ("allOf", .arr [.obj [("properties", .obj [("x", exStringSchema)])]])]

/-- `oneOf` listed before `anyOf`; both branches resolve `x`. -/
def exAnyOneSchema : JsVal :=
  .obj [
    ("oneOf", .arr [.obj [("properties", .obj [("x", exNumberSchema)])]]),
    ("anyOf", .arr [.obj [("properties", .obj [("x", exStringSchema)])]])]

/-- `then` listed before `oneOf`; both resolve `x`. -/
def exOneThenSchema : JsVal :=
  .obj [
    ("then", .obj [("properties", .obj [("x", exNumberSchema)])]),
    ("oneOf", .arr [.obj [("properties", .obj [("x", exStringSchema)])]])]

/-- `else` listed before `then`; both resolve `x`. -/
def exThenElseSchema : JsVal :=
  .obj [
    ("else", .obj [("properties", .obj [("x", exNumberSchema)])]),
    ("then", .obj [("properties", .obj [("x", exStringSchema)])])]

/-- An `allOf` branch that cannot resolve `x` followed by an `anyOf`
branch that can: the first branch yielding a resolution wins. -/
def exFirstYieldSchema : JsVal :=
  .obj [
    ("allOf", .arr [.obj [("properties", .obj [("z", exNumberSchema)])]]),
    ("anyOf", .arr [.obj [("properties", .obj [("x", exStringSchema)])]])]

/-- The tuple-form schema `{"items": [...string, ...number]}`. -/
def exTupleSchema : JsVal := .obj [("items", .arr [exStringSchema, exNumberSchema])]

/-- `items` listed before `prefixItems`; index 0 is in range of both. -/
def exPrefixSchema : JsVal :=
  .obj [("items", .arr [exNumberSchema]), ("prefixItems", .arr [exStringSchema])]

/-- Single-schema `items`. -/
def exSingleItemsSchema : JsVal := .obj [("items", exStringSchema)]

/-- A tuple `items` together with `contains`: an out-of-range index
falls through to `contains`. -/
def exContainsSchema : JsVal :=
  .obj [("items", .arr [exStringSchema]), ("contains", exNumberSchema)]

/-- `unevaluatedItems` listed before `additionalItems`. -/
def exAddUnevalSchema : JsVal :=
  .obj [("unevaluatedItems", exNumberSchema), ("additionalItems", exStringSchema)]

/-- The spec's cyclic schema: root `{"$ref": "#/a"}` with
`a: {"$ref": "#/a"}`. -/
def exCycleRoot : JsVal := .obj [("$ref", .str "#/a"), ("a", .obj [("$ref", .str "#/a")])]

/-- The ajv error for a missing required property `name` at the
document root. -/
def exRequiredError : ErrorObject :=
  { keyword := some "required"
    instancePath := some ""
    params := .obj [("missingProperty", .str "name")]
    message := some "must have required property name" }

/-- The ajv error for an `enum` violation with allowed values
`["a", "b"]`. -/
def exEnumError : ErrorObject :=
  { keyword := some "enum"
    instancePath := some ""
    params := .obj [("allowedValues", .arr [.str "a", .str "b"])]
    message := none }

/-! ### Size lemmas and fuel stability of the resolver -/

theorem jsSize_pos (v : JsVal) : 0 < jsSize v := by
  cases v <;> simp [jsSize]

theorem getProp_jsSizeFields {fields : List (String × JsVal)} {k : String} {v : JsVal}
    (h : getProp fields k = some v) : jsSize v ≤ jsSizeFields fields := by
  induction fields with
  | nil => simp [getProp] at h
  | cons kv rest ih =>
    obtain ⟨k', v'⟩ := kv
    by_cases hk : k' = k
    · simp [getProp, hk] at h
      subst h
      simp [jsSizeFields]
      omega
    · simp [getProp, hk] at h
      have := ih h
      simp [jsSizeFields]
      omega

theorem getProp_jsSize {fields : List (String × JsVal)} {k : String} {v : JsVal}
    (h : getProp fields k = some v) : jsSize v < jsSize (JsVal.obj fields) := by
  have := getProp_jsSizeFields h
  simp [jsSize]
  omega

theorem mem_jsSizeList {xs : List JsVal} {x : JsVal} (h : x ∈ xs) :
    jsSize x ≤ jsSizeList xs := by
  induction xs with
  | nil => cases h
  | cons y rest ih =>
    rcases List.mem_cons.mp h with h | h
    · subst h; simp [jsSizeList]; omega
    · have := ih h; simp [jsSizeList]; omega

theorem schemaLikeField_jsSize {fields : List (String × JsVal)} {name : String} {v : JsVal}
    (h : schemaLikeField fields name = some v) : jsSize v < jsSize (JsVal.obj fields) := by
  unfold schemaLikeField at h
  cases hg : getProp fields name with
  | none => rw [hg] at h; simp at h
  | some w =>
    rw [hg] at h
    simp at h
    by_cases hs : isSchemaLike w = true
    · simp [hs] at h
      subst h
      exact getProp_jsSize hg
    · simp [hs] at h

theorem mem_enumFrom {α : Type} {p : Nat × α} : ∀ {i : Nat} {l : List α}, p ∈ enumFrom i l → p.2 ∈ l := by
  intro i l
  induction l generalizing i with
  | nil => intro h; cases h
  | cons x rest ih =>
    intro h
    rcases List.mem_cons.mp h with h | h
    · subst h; exact List.mem_cons_self _ _
    · exact List.mem_cons_of_mem _ (ih h)

theorem findSome?_congr {α β : Type} {f g : α → Option β} :
    ∀ (l : List α), (∀ a ∈ l, f a = g a) → l.findSome? f = l.findSome? g := by
  intro l
  induction l with
  | nil => intro _; rfl
  | cons x rest ih =>
    intro h
    rw [List.findSome?_cons, List.findSome?_cons, h x (List.mem_cons_self _ _)]
    cases g x with
    | none => exact ih fun a ha => h a (List.mem_cons_of_mem _ ha)
    | some b => rfl

theorem compositeKw_congr {r₁ r₂ : JsVal → String → Option SchemaResolution}
    {fields : List (String × JsVal)} {pointer kw : String}
    (h : ∀ v p, jsSize v < jsSize (JsVal.obj fields) → r₁ v p = r₂ v p) :
    compositeKw r₁ fields pointer kw = compositeKw r₂ fields pointer kw := by
  unfold compositeKw
  cases hg : getProp fields kw with
  | none => rfl
  | some w =>
    cases w with
    | arr xs =>
      apply findSome?_congr
      intro p hp
      apply h
      have h1 : jsSize p.2 ≤ jsSizeList xs := mem_jsSizeList (mem_enumFrom hp)
      have h2 : jsSize (JsVal.arr xs) < jsSize (JsVal.obj fields) := getProp_jsSize hg
      simp [jsSize] at h2 ⊢
      omega
    | null => rfl
    | undefined => rfl
    | bool b => rfl
    | num n => rfl
    | str s => rfl
    | obj fs => rfl

theorem bindField_congr {r₁ r₂ : JsVal → String → Option SchemaResolution}
    {fields : List (String × JsVal)} {name : String} {m : JsVal → String}
    (h : ∀ v p, jsSize v < jsSize (JsVal.obj fields) → r₁ v p = r₂ v p) :
    ((schemaLikeField fields name).bind fun v => r₁ v (m v))
      = ((schemaLikeField fields name).bind fun v => r₂ v (m v)) := by
  cases hs : schemaLikeField fields name with
  | none => rfl
  | some v =>
    show r₁ v (m v) = r₂ v (m v)
    exact h v (m v) (schemaLikeField_jsSize hs)

theorem resolveFromCompositeSchemas_congr {r₁ r₂ : JsVal → String → Option SchemaResolution}
    {fields : List (String × JsVal)} {pointer : String}
    (h : ∀ v p, jsSize v < jsSize (JsVal.obj fields) → r₁ v p = r₂ v p) :
    resolveFromCompositeSchemas r₁ fields pointer = resolveFromCompositeSchemas r₂ fields pointer := by
  unfold resolveFromCompositeSchemas
  rw [compositeKw_congr h, compositeKw_congr h, compositeKw_congr h,
    bindField_congr h (m := fun _ => joinPointer pointer [.str "then"]),
    bindField_congr h (m := fun _ => joinPointer pointer [.str "else"])]

theorem resolveStep_congr {re : String → String → Option Bool}
    {r₁ r₂ : JsVal → String → JsonSeg → Option SchemaResolution}
    {schema : JsVal} {pointer : String} {seg : JsonSeg}
    (h : ∀ v p g, jsSize v < jsSize schema → r₁ v p g = r₂ v p g) :
    resolveStep re r₁ schema pointer seg = resolveStep re r₂ schema pointer seg := by
  cases schema with
  | obj fields =>
    cases seg with
    | str key =>
      simp only [resolveStep]
      rw [resolveFromCompositeSchemas_congr (fun v p hv => h v p (.str key) hv)]
    | idx i =>
      simp only [resolveStep]
      rw [resolveFromCompositeSchemas_congr (fun v p hv => h v p (.idx i) hv)]
  | null => rfl
  | undefined => rfl
  | bool b => cases seg <;> rfl
  | num n => rfl
  | str s => rfl
  | arr xs => rfl

theorem resolveSegGo_stable (re : String → String → Option Bool) :
    ∀ fuel₁ fuel₂ schema pointer seg, jsSize schema ≤ fuel₁ → jsSize schema ≤ fuel₂ →
      resolveSegGo re fuel₁ schema pointer seg = resolveSegGo re fuel₂ schema pointer seg := by
  intro fuel₁
  induction fuel₁ with
  | zero =>
    intro f₂ s p g h1 _
    have := jsSize_pos s
    omega
  | succ f ih =>
    intro f₂ s p g h1 h2
    cases f₂ with
    | zero => have := jsSize_pos s; omega
    | succ f₂' =>
      simp only [resolveSegGo]
      exact resolveStep_congr fun v p' g' hv => ih f₂' v p' g' (by omega) (by omega)

theorem resolveSegGo_min {re : String → String → Option Bool} {fuel : Nat} {schema : JsVal}
    {pointer : String} {seg : JsonSeg} (h : jsSize schema ≤ fuel) :
    resolveSegGo re fuel schema pointer seg = resolveSegGo re (jsSize schema) schema pointer seg :=
  resolveSegGo_stable re fuel (jsSize schema) schema pointer seg h (Nat.le_refl _)

/-! ### Dereferencing: the visited set bounds the loop -/

theorem getProp_refStrings {fields : List (String × JsVal)} {k : String} {v : JsVal}
    (h : getProp fields k = some v) :
    ∀ s ∈ refStrings v, s ∈ refStrings (JsVal.obj fields) := by
  induction fields with
  | nil => simp [getProp] at h
  | cons kv rest ih =>
    obtain ⟨k', v'⟩ := kv
    intro s hs
    by_cases hk : k' = k
    · simp [getProp, hk] at h
      subst h
      simp [refStrings, refStringsFields, List.mem_append]
      tauto
    · simp [getProp, hk] at h
      have := ih h s hs
      simp [refStrings, refStringsFields, List.mem_append] at this ⊢
      tauto

theorem mem_refStringsList {xs : List JsVal} {x : JsVal} (hx : x ∈ xs) :
    ∀ s ∈ refStrings x, s ∈ refStringsList xs := by
  induction xs with
  | nil => cases hx
  | cons y rest ih =>
    intro s hs
    rcases List.mem_cons.mp hx with h | h
    · subst h
      simp [refStringsList, List.mem_append]
      exact Or.inl hs
    · simp [refStringsList, List.mem_append]
      exact Or.inr (ih h s hs)

theorem getD_mem {xs : List JsVal} {n : Nat} (h : n < xs.length) : xs.getD n .null ∈ xs := by
  induction xs generalizing n with
  | nil => simp at h
  | cons x rest ih =>
    cases n with
    | zero => simp [List.getD]
    | succ m =>
      have : m < rest.length := by simpa using h
      simp [List.getD] at ih ⊢
      exact Or.inr (ih this)

theorem pointerWalk_refStrings :
    ∀ (segs : List String) (cur t : JsVal), pointerWalk cur segs = some t →
      ∀ s ∈ refStrings t, s ∈ refStrings cur := by
  intro segs
  induction segs with
  | nil =>
    intro cur t h
    simp [pointerWalk] at h
    subst h
    exact fun s hs => hs
  | cons seg rest ih =>
    intro cur t h
    cases cur with
    | arr xs =>
      simp only [pointerWalk] at h
      split at h
      · split at h
        · intro s hs
          rename_i i hp hb
          have hmem : xs.getD i.toNat .null ∈ xs := getD_mem hb.2
          exact mem_refStringsList hmem s (ih _ _ h s hs)
        · simp at h
      · simp at h
    | obj fields =>
      simp only [pointerWalk] at h
      split at h
      · rename_i v hg
        intro s hs
        exact getProp_refStrings hg s (ih _ _ h s hs)
      · simp at h
    | null => simp [pointerWalk] at h
    | undefined => simp [pointerWalk] at h
    | bool b => simp [pointerWalk] at h
    | num n => simp [pointerWalk] at h
    | str s => simp [pointerWalk] at h

theorem getSchemaAtPointer_refStrings {root t : JsVal} {pointer : String}
    (h : getSchemaAtPointer root pointer = some t) :
    ∀ s ∈ refStrings t, s ∈ refStrings root :=
  pointerWalk_refStrings _ _ _ h

theorem getProp_ref_mem {fields : List (String × JsVal)} {ref : String}
    (h : getProp fields "$ref" = some (.str ref)) : ref ∈ refStrings (JsVal.obj fields) := by
  induction fields with
  | nil => simp [getProp] at h
  | cons kv rest ih =>
    obtain ⟨k', v'⟩ := kv
    by_cases hk : k' = "$ref"
    · simp [getProp, hk] at h
      subst h
      simp [refStrings, refStringsFields, hk]
    · simp [getProp, hk] at h
      have := ih h
      simp [refStrings, refStringsFields, List.mem_append] at this ⊢
      tauto

theorem nodup_subset_length {l C : List String} (hnd : l.Nodup) (hsub : ∀ s ∈ l, s ∈ C) :
    l.length ≤ C.length :=
  (hnd.subperm fun {a} ha => hsub a ha).length_le

theorem derefStep_follow {root cur : JsVal} {ptr normalized : String} {visited : List String}
    {target : JsVal} (h : derefStep root cur ptr visited = .follow target normalized) :
    normalized ∉ visited ∧ getSchemaAtPointer root normalized = some target ∧
      normalized ∈ refStrings cur := by
  unfold derefStep at h
  split at h
  · rename_i fields
    split at h
    · rename_i ref hg
      split at h
      · have href : (if ref = "#" then "#" else ref) = ref := by
          by_cases hq : ref = "#" <;> simp [hq]
        rw [href] at h
        split at h
        · exact absurd h (by simp)
        · rename_i hmem
          split at h
          · rename_i t ht
            cases h
            exact ⟨hmem, ht, getProp_ref_mem hg⟩
          · exact absurd h (by simp)
      · exact absurd h (by simp)
    · exact absurd h (by simp)
  · exact absurd h (by simp)

theorem derefGo_stable (root : JsVal) (C : List String)
    (hroot : ∀ s ∈ refStrings root, s ∈ C) :
    ∀ fuel₁ fuel₂ cur ptr visited, visited.Nodup → (∀ s ∈ visited, s ∈ C) →
      (∀ s ∈ refStrings cur, s ∈ C) →
      C.length + 1 ≤ fuel₁ + visited.length → C.length + 1 ≤ fuel₂ + visited.length →
      derefGo root fuel₁ cur ptr visited = derefGo root fuel₂ cur ptr visited := by
  intro fuel₁
  induction fuel₁ with
  | zero =>
    intro f₂ cur ptr visited hnd hvc _ h1 _
    have := nodup_subset_length hnd hvc
    omega
  | succ f ih =>
    intro f₂ cur ptr visited hnd hvc hcur h1 h2
    cases f₂ with
    | zero =>
      have := nodup_subset_length hnd hvc
      omega
    | succ f₂' =>
      simp only [derefGo]
      cases hs : derefStep root cur ptr visited with
      | stop res => rfl
      | follow target normalized =>
        obtain ⟨hmem, ht, href⟩ := derefStep_follow hs
        have hnC : normalized ∈ C := hcur normalized href
        have hnd' : (normalized :: visited).Nodup := List.nodup_cons.mpr ⟨hmem, hnd⟩
        have hvc' : ∀ s ∈ normalized :: visited, s ∈ C := by
          intro s hsm
          rcases List.mem_cons.mp hsm with h | h
          · subst h; exact hnC
          · exact hvc s h
        have hlen : (normalized :: visited).length ≤ C.length := nodup_subset_length hnd' hvc'
        apply ih f₂' target normalized (normalized :: visited) hnd' hvc'
        · intro s hsm
          exact hroot s (getSchemaAtPointer_refStrings ht s hsm)
        · simp at hlen ⊢; omega
        · simp at hlen ⊢; omega

/-! ### Decimal and escaping round trips -/

theorem valDigits_append_digit (l : List Char) (c : Char) :
    valDigits (l ++ [c]) = (valDigits l).bind fun a => (digitVal? c).map fun d => a * 10 + d := by
  simp [valDigits, List.foldl_append]

theorem digitVal?_digitChar {d : Nat} (h : d < 10) : digitVal? (digitChar d) = some d := by
  interval_cases d <;> rfl

theorem valDigits_natCharsAux : ∀ (fuel n : Nat), n ≤ fuel →
    valDigits (natCharsAux fuel n) = some n := by
  intro fuel
  induction fuel with
  | zero =>
    intro n h
    have : n = 0 := Nat.le_zero.mp h
    subst this
    rfl
  | succ f ih =>
    intro n h
    by_cases hn : n = 0
    · subst hn; rfl
    · have hlt : n / 10 < n := Nat.div_lt_self (Nat.pos_of_ne_zero hn) (by omega)
      have hle : n / 10 ≤ f := by omega
      simp only [natCharsAux, if_neg hn]
      rw [valDigits_append_digit, ih (n / 10) hle]
      rw [digitVal?_digitChar (Nat.mod_lt n (by omega))]
      have := Nat.div_add_mod n 10
      simp
      omega

theorem natCharsAux_digits : ∀ (fuel n : Nat) (c : Char), c ∈ natCharsAux fuel n →
    48 ≤ c.toNat ∧ c.toNat ≤ 57 := by
  intro fuel
  induction fuel with
  | zero => intro n c h; simp [natCharsAux] at h
  | succ f ih =>
    intro n c h
    by_cases hn : n = 0
    · subst hn; simp [natCharsAux] at h
    · simp only [natCharsAux, if_neg hn] at h
      rcases List.mem_append.mp h with h | h
      · exact ih _ _ h
      · have : c = digitChar (n % 10) := by simpa using h
        subst this
        have : n % 10 < 10 := Nat.mod_lt n (by omega)
        interval_cases hm : n % 10 <;> simp_all <;> decide

theorem natChars_digits {n : Nat} {c : Char} (h : c ∈ natChars n) :
    48 ≤ c.toNat ∧ c.toNat ≤ 57 := by
  unfold natChars at h
  by_cases hn : n = 0
  · rw [if_pos hn] at h
    have : c = '0' := by simpa using h
    subst this
    exact ⟨by decide, by decide⟩
  · rw [if_neg hn] at h
    exact natCharsAux_digits n n c h

theorem natChars_ne_nil (n : Nat) : natChars n ≠ [] := by
  unfold natChars
  by_cases hn : n = 0
  · simp [hn]
  · rw [if_neg hn]
    cases hf : n with
    | zero => exact absurd hf hn
    | succ m =>
      simp only [natCharsAux, if_neg hn]
      simp

theorem parseDigits?_natChars (n : Nat) : parseDigits? (natChars n) = some n := by
  have hne := natChars_ne_nil n
  have hval : valDigits (natChars n) = some n := by
    unfold natChars
    by_cases hn : n = 0
    · subst hn; rfl
    · rw [if_neg hn]
      exact valDigits_natCharsAux n n (Nat.le_refl n)
  cases hc : natChars n with
  | nil => exact absurd hc hne
  | cons c rest =>
    rw [hc] at hval
    simpa [parseDigits?] using hval

theorem parseJsInt?_print (i : Int) : parseJsInt? (jsIntToString i).data = some i := by
  cases i with
  | ofNat m =>
    have hdata : (jsIntToString (Int.ofNat m)).data = natChars m := rfl
    rw [hdata]
    have hne := natChars_ne_nil m
    cases hc : natChars m with
    | nil => exact absurd hc hne
    | cons c rest =>
      have hcd : 48 ≤ c.toNat ∧ c.toNat ≤ 57 := natChars_digits (hc ▸ List.mem_cons_self c rest)
      have hcm : c ≠ '-' := by
        intro h
        subst h
        exact absurd hcd (by decide)
      simp only [parseJsInt?, if_neg hcm]
      rw [← hc, parseDigits?_natChars]
      rfl
  | negSucc m =>
    have hdata : (jsIntToString (Int.negSucc m)).data = '-' :: natChars (m + 1) := rfl
    rw [hdata]
    simp only [parseJsInt?, if_pos rfl]
    rw [parseDigits?_natChars]
    simp [Int.negSucc_eq]

theorem jsIntLiteral?_print (i : Int) : jsIntLiteral? (jsIntToString i) = some i := by
  unfold jsIntLiteral?
  rw [parseJsInt?_print i]
  simp

theorem natChars_no_tilde_slash {n : Nat} {c : Char} (h : c ∈ natChars n) :
    c ≠ '~' ∧ c ≠ '/' := by
  have := natChars_digits h
  constructor <;> intro hq <;> subst hq <;> exact absurd this (by decide)

theorem unescape_escape (l : List Char) : unescapeSeg (escapeSeg l) = l := by
  induction l with
  | nil => rfl
  | cons c rest ih =>
    by_cases h1 : c = '~'
    · subst h1
      simp [escapeSeg, unescapeSeg, ih]
    · by_cases h2 : c = '/'
      · subst h2
        simp [escapeSeg, unescapeSeg, ih]
      · simp only [escapeSeg, if_neg h1, if_neg h2]
        cases he : escapeSeg rest with
        | nil =>
          have hrest : rest = [] := by
            have h3 := ih
            rw [he] at h3
            simpa [unescapeSeg] using h3.symm
          subst hrest
          simp [unescapeSeg, if_neg h1]
        | cons c2 r2 =>
          simp only [unescapeSeg, if_neg h1]
          rw [← he, ih]

theorem escapeSeg_no_slash (l : List Char) : '/' ∉ escapeSeg l := by
  induction l with
  | nil => simp [escapeSeg]
  | cons c rest ih =>
    by_cases h1 : c = '~'
    · subst h1; simp [escapeSeg, ih]
    · by_cases h2 : c = '/'
      · subst h2; simp [escapeSeg, ih]
      · simp [escapeSeg, if_neg h1, if_neg h2]
        exact ⟨fun hq => h2 hq.symm, ih⟩

theorem escapeSeg_id {l : List Char} (h : ∀ c ∈ l, c ≠ '~' ∧ c ≠ '/') : escapeSeg l = l := by
  induction l with
  | nil => rfl
  | cons c rest ih =>
    have hc := h c (List.mem_cons_self c rest)
    simp only [escapeSeg, if_neg hc.1, if_neg hc.2]
    rw [ih fun a ha => h a (List.mem_cons_of_mem _ ha)]

theorem unescapeSeg_id {l : List Char} (h : ∀ c ∈ l, c ≠ '~') : unescapeSeg l = l := by
  induction l with
  | nil => rfl
  | cons c rest ih =>
    have hc := h c (List.mem_cons_self c rest)
    cases rest with
    | nil => simp [unescapeSeg, if_neg hc]
    | cons c2 r2 =>
      simp only [unescapeSeg, if_neg hc]
      rw [ih fun a ha => h a (List.mem_cons_of_mem _ ha)]

theorem splitSlash_no_slash {l : List Char} (h : '/' ∉ l) : splitSlash l = [l] := by
  induction l with
  | nil => rfl
  | cons c rest ih =>
    have hc : c ≠ '/' := fun hq => h (hq ▸ List.mem_cons_self c rest)
    have hr : '/' ∉ rest := fun hq => h (List.mem_cons_of_mem _ hq)
    simp only [splitSlash, if_neg hc, ih hr]

theorem splitSlash_append {a : List Char} (t : List Char) (h : '/' ∉ a) :
    splitSlash (a ++ '/' :: t) = a :: splitSlash t := by
  induction a with
  | nil => simp [splitSlash]
  | cons c rest ih =>
    have hc : c ≠ '/' := fun hq => h (hq ▸ List.mem_cons_self c rest)
    have hr : '/' ∉ rest := fun hq => h (List.mem_cons_of_mem _ hq)
    simp only [List.cons_append, splitSlash, if_neg hc]
    show (match splitSlash (rest ++ '/' :: t) with
      | s :: ss => (c :: s) :: ss
      | [] => [[c]]) = (c :: rest) :: splitSlash t
    rw [ih hr]

theorem splitSlash_joinSlash : ∀ (parts : List (List Char)), parts ≠ [] →
    (∀ p ∈ parts, '/' ∉ p) → splitSlash (joinSlash parts) = parts := by
  intro parts
  induction parts with
  | nil => intro h _; exact absurd rfl h
  | cons a rest ih =>
    intro _ hp
    cases rest with
    | nil =>
      simp only [joinSlash]
      exact splitSlash_no_slash (hp a (List.mem_cons_self a _))
    | cons b rest2 =>
      simp only [joinSlash]
      rw [splitSlash_append _ (hp a (List.mem_cons_self a _))]
      rw [ih (by simp) fun p hq => hp p (List.mem_cons_of_mem _ hq)]

theorem decode_encode_str {s : String} (h : jsIntLiteral? s = none) :
    decodePointerSegment (escapeSeg s.data) = .str s := by
  unfold decodePointerSegment
  rw [unescape_escape]
  show (match jsIntLiteral? s with
    | some n => JsonSeg.idx n
    | none => JsonSeg.str s) = JsonSeg.str s
  rw [h]

theorem jsIntToString_no_tilde_slash (i : Int) :
    ∀ c ∈ (jsIntToString i).data, c ≠ '~' ∧ c ≠ '/' := by
  cases i with
  | ofNat m =>
    intro c hc
    exact natChars_no_tilde_slash (n := m) hc
  | negSucc m =>
    intro c hc
    have hdata : (jsIntToString (Int.negSucc m)).data = '-' :: natChars (m + 1) := rfl
    rw [hdata] at hc
    rcases List.mem_cons.mp hc with h | h
    · subst h; exact ⟨by decide, by decide⟩
    · exact natChars_no_tilde_slash h

theorem decode_encode_idx (i : Int) :
    decodePointerSegment (escapeSeg (jsIntToString i).data) = .idx i := by
  unfold decodePointerSegment
  rw [escapeSeg_id (jsIntToString_no_tilde_slash i),
    unescapeSeg_id fun c hc => (jsIntToString_no_tilde_slash i c hc).1]
  show (match jsIntLiteral? (jsIntToString i) with
    | some n => JsonSeg.idx n
    | none => JsonSeg.str (jsIntToString i)) = JsonSeg.idx i
  rw [jsIntLiteral?_print]

theorem decode_encode_path : ∀ (p : List JsonSeg),
    (∀ s, JsonSeg.str s ∈ p → jsIntLiteral? s = none) →
    (p.map fun x => decodePointerSegment (escapeSeg (segToString x).data)) = p := by
  intro p
  induction p with
  | nil => intro _; rfl
  | cons x rest ih =>
    intro hp
    have hx : decodePointerSegment (escapeSeg (segToString x).data) = x := by
      cases x with
      | str s => exact decode_encode_str (hp s (List.mem_cons_self _ _))
      | idx i => exact decode_encode_idx i
    simp only [List.map_cons, hx]
    rw [ih fun s hs => hp s (List.mem_cons_of_mem _ hs)]

theorem pointerToPath_encode {p : List JsonSeg}
    (hp : ∀ s, JsonSeg.str s ∈ p → jsIntLiteral? s = none) :
    pointerToPath (joinPointer "#" p) = p := by
  cases p with
  | nil => rfl
  | cons q rest =>
    have hjoin : joinPointer "#" (q :: rest) =
        buildPointerFromSegments ((q :: rest).map segToString) := rfl
    rw [hjoin]
    have hne : (q :: rest).map segToString ≠ [] := by simp
    unfold buildPointerFromSegments
    rw [if_neg hne]
    have hdata : ("#/" ++ String.mk (joinSlash (((q :: rest).map segToString).map fun s =>
        (escapePointerSegment s).data))).data
        = '#' :: '/' :: joinSlash (((q :: rest).map segToString).map fun s =>
        (escapePointerSegment s).data) := by
      rw [String.data_append]
      rfl
    have hsne : ("#/" ++ String.mk (joinSlash (((q :: rest).map segToString).map fun s =>
        (escapePointerSegment s).data))) ≠ "" := by
      intro h
      have h2 := congrArg String.data h
      rw [hdata] at h2
      simp at h2
    unfold pointerToPath
    rw [if_neg hsne, hdata]
    have hsplit : splitSlash ('#' :: '/' :: joinSlash (((q :: rest).map segToString).map fun s =>
        (escapePointerSegment s).data))
        = ['#'] :: splitSlash (joinSlash (((q :: rest).map segToString).map fun s =>
        (escapePointerSegment s).data)) := rfl
    rw [hsplit]
    rw [splitSlash_joinSlash _ (by simp) ?noslash]
    case noslash =>
      intro part hpart
      simp only [List.map_map, List.mem_map] at hpart
      obtain ⟨x, _, hx⟩ := hpart
      rw [← hx]
      exact escapeSeg_no_slash _
    show ((((q :: rest).map segToString).map fun s =>
      (escapePointerSegment s).data).map decodePointerSegment) = q :: rest
    rw [List.map_map, List.map_map]
    exact decode_encode_path (q :: rest) hp

/-! ### The claims -/

/-- C1: property-name resolution falls back to the composite keywords in
the order `allOf`, `anyOf`, `oneOf` (keyword order, then array order),
then `then`, then `else`, the first branch yielding a resolution
winning regardless of the schema's own field order; on the spec's
composite schema, path `["x"]` resolves to the string subschema at
`#/allOf/0/properties/x` and `["y"]` to the number subschema at
`#/allOf/1/properties/y`; when no keyword applies at any level the
resolution is `none`. -/
theorem claim_C1 :
    (∀ re, resolveSchemaForPath re ⟨exCompositeSchema⟩ (some [.str "x"]) =
      some ⟨exStringSchema, "#/allOf/0/properties/x"⟩)
    ∧ (∀ re, resolveSchemaForPath re ⟨exCompositeSchema⟩ (some [.str "y"]) =
      some ⟨exNumberSchema, "#/allOf/1/properties/y"⟩)
    ∧ (∀ re, resolvePropertySchema re exKeywordOrderSchema "#" "x" =
      some ⟨exStringSchema, "#/allOf/0/properties/x"⟩)
    ∧ (∀ re, resolvePropertySchema re exAnyOneSchema "#" "x" =
      some ⟨exStringSchema, "#/anyOf/0/properties/x"⟩)
    ∧ (∀ re, resolvePropertySchema re exOneThenSchema "#" "x" =
      some ⟨exStringSchema, "#/oneOf/0/properties/x"⟩)
    ∧ (∀ re, resolvePropertySchema re exThenElseSchema "#" "x" =
      some ⟨exStringSchema, "#/then/properties/x"⟩)
    ∧ (∀ re, resolvePropertySchema re exFirstYieldSchema "#" "x" =
      some ⟨exStringSchema, "#/anyOf/0/properties/x"⟩)
    ∧ (∀ re pointer key, resolvePropertySchema re (.obj []) pointer key = none) := by
  refine ⟨fun re => rfl, fun re => rfl, fun re => rfl, fun re => rfl, fun re => rfl,
    fun re => rfl, fun re => rfl, fun re pointer key => rfl⟩

/-- C5: array-index resolution tries `prefixItems`, tuple-form `items`
(in range), single-schema `items` (uniformly for every index),
`contains`, `additionalItems`, `unevaluatedItems`, then the composite
fallback; on the tuple schema, index 0 yields the string schema at
`#/items/0` and the out-of-range index 2 yields `none`. -/
theorem claim_C5 :
    (∀ re, resolveSchemaForPath re ⟨exTupleSchema⟩ (some [.idx 0]) =
      some ⟨exStringSchema, "#/items/0"⟩)
    ∧ (∀ re, resolveSchemaForPath re ⟨exTupleSchema⟩ (some [.idx 2]) = none)
    ∧ (∀ re, resolveArraySchema re exPrefixSchema "#" 0 =
      some ⟨exStringSchema, "#/prefixItems/0"⟩)
    ∧ (∀ re pointer (i : Int), resolveArraySchema re exSingleItemsSchema pointer i =
      some ⟨exStringSchema, joinPointer pointer [.str "items"]⟩)
    ∧ (∀ re, resolveArraySchema re exContainsSchema "#" 2 =
      some ⟨exNumberSchema, "#/contains"⟩)
    ∧ (∀ re, resolveArraySchema re exAddUnevalSchema "#" 0 =
      some ⟨exStringSchema, "#/additionalItems"⟩) := by
  exact ⟨fun re => rfl, fun re => rfl, fun re => rfl, fun re pointer i => rfl,
    fun re => rfl, fun re => rfl⟩

/-- C3, counterexample: the claimed round trip fails on the path whose
single segment is the string `"0"` — encoding gives `#/0`, which the
decoder classifies as the array index 0, not the property name `"0"`. -/
theorem claim_C3_counterexample :
    pointerToPath (joinPointer "#" [JsonSeg.str "0"]) ≠ [JsonSeg.str "0"]
    ∧ pointerToPath (joinPointer "#" [JsonSeg.str "0"]) = [JsonSeg.idx 0] := by
  exact ⟨by decide, by decide⟩

/-- C3, amended: `""` and `"#"` decode to the empty path, and decoding
the pointer produced by encoding `p` yields `p` again for every path
`p` none of whose string segments is a canonical (optionally negated)
integer literal — such segments are necessarily decoded as array
indices; integer segments (including negative ones, which the decoder
also accepts) always round-trip. -/
theorem claim_C3 :
    pointerToPath "" = [] ∧ pointerToPath "#" = []
    ∧ ∀ p : List JsonSeg, (∀ s, JsonSeg.str s ∈ p → jsIntLiteral? s = none) →
      pointerToPath (joinPointer "#" p) = p := by
  exact ⟨rfl, rfl, fun p hp => pointerToPath_encode hp⟩

/-- Witness for C3 at the concrete path `["name", 2, -1]`. -/
theorem claim_C3_witness :
    (∀ s, JsonSeg.str s ∈ [JsonSeg.str "name", JsonSeg.idx 2, JsonSeg.idx (-1)] →
      jsIntLiteral? s = none)
    ∧ pointerToPath (joinPointer "#" [JsonSeg.str "name", JsonSeg.idx 2, JsonSeg.idx (-1)]) =
      [JsonSeg.str "name", JsonSeg.idx 2, JsonSeg.idx (-1)] := by
  have hseg : ∀ s, JsonSeg.str s ∈ [JsonSeg.str "name", JsonSeg.idx 2, JsonSeg.idx (-1)] →
      jsIntLiteral? s = none := by
    intro s hs
    simp at hs
    subst hs
    decide
  exact ⟨hseg, claim_C3.2.2 [JsonSeg.str "name", JsonSeg.idx 2, JsonSeg.idx (-1)] hseg⟩

/-- C10: with a stored `SchemaInfo`, resolving an undefined or empty
path always succeeds and returns the dereferenced root schema with its
canonical pointer; a `none` result therefore requires a missing
`SchemaInfo` or a non-empty path whose segments fail to match. -/
theorem claim_C10 :
    (∀ re info, resolveSchemaForPath re info none =
      some (dereferenceSchema info.schema "#" info.schema))
    ∧ (∀ re info, resolveSchemaForPath re info (some []) =
      some (dereferenceSchema info.schema "#" info.schema))
    ∧ (∀ re info path, (path = none ∨ path = some []) →
      (resolveSchemaForJsonPath re (some info) path).isSome = true)
    ∧ (∀ re path, resolveSchemaForJsonPath re none path = none) := by
  refine ⟨fun re info => rfl, fun re info => rfl, ?_, fun re path => rfl⟩
  intro re info path h
  rcases h with h | h <;> subst h <;> rfl

/-- Witness for C10 on the tuple schema with an undefined path. -/
theorem claim_C10_witness :
    ((none : Option (List JsonSeg)) = none ∨ (none : Option (List JsonSeg)) = some [])
    ∧ (resolveSchemaForJsonPath noRegex (some ⟨exTupleSchema⟩) none).isSome = true :=
  ⟨Or.inl rfl, claim_C10.2.2.1 noRegex ⟨exTupleSchema⟩ none (Or.inl rfl)⟩

/-- C2: dereferencing follows only same-document references (a `$ref`
not starting with `#` is returned as a leaf), each followed pointer is
recorded in the per-call visited set, and the loop's fuel is irrelevant
beyond the visited-set bound, so dereferencing terminates on every
schema; on the spec's cyclic schema, entering through
`{"$ref": "#/a"}` terminates and yields that very `$ref` object, at
pointer `#/a`, as the resolved schema. -/
theorem claim_C2 :
    (∀ re, resolveSchemaForPath re ⟨exCycleRoot⟩ none =
      some ⟨.obj [("$ref", .str "#/a")], "#/a"⟩)
    ∧ dereferenceSchema (.obj [("$ref", .str "#/a")]) "#" exCycleRoot =
      ⟨.obj [("$ref", .str "#/a")], "#/a"⟩
    ∧ (∀ fields ref pointer root, getProp fields "$ref" = some (.str ref) →
      strStartsWith ref "#" = false →
      dereferenceSchema (.obj fields) pointer root = ⟨.obj fields, pointer⟩)
    ∧ (∀ root schema pointer fuel, (refCandidates root schema).length + 1 ≤ fuel →
      derefGo root fuel schema pointer [] =
        derefGo root ((refCandidates root schema).length + 1) schema pointer []) := by
  refine ⟨fun re => rfl, rfl, ?_, ?_⟩
  · intro fields ref pointer root hg hsw
    unfold dereferenceSchema
    rw [if_pos (show isRecord (.obj fields) = true from rfl)]
    simp only [derefGo]
    have hstep : derefStep root (.obj fields) pointer [] = .stop ⟨.obj fields, pointer⟩ := by
      simp only [derefStep, hg, hsw]
      rfl
    rw [hstep]
  · intro root schema pointer fuel hfuel
    have hsub : ∀ s ∈ refStrings schema, s ∈ refCandidates root schema := by
      intro s hs
      exact List.mem_dedup.mpr (List.mem_append.mpr (Or.inl hs))
    have hrootsub : ∀ s ∈ refStrings root, s ∈ refCandidates root schema := by
      intro s hs
      exact List.mem_dedup.mpr (List.mem_append.mpr (Or.inr hs))
    exact derefGo_stable root (refCandidates root schema) hrootsub fuel
      ((refCandidates root schema).length + 1) schema pointer [] List.nodup_nil
      (by intro s hs; cases hs) hsub (by simp; omega) (by simp)

/-- Witness for C2: the external-reference clause at a concrete schema
and the fuel clause at a concrete, larger-than-needed fuel. -/
theorem claim_C2_witness :
    (getProp [("$ref", JsVal.str "https://example.com/s.json")] "$ref" =
        some (.str "https://example.com/s.json")
      ∧ strStartsWith "https://example.com/s.json" "#" = false
      ∧ dereferenceSchema (.obj [("$ref", .str "https://example.com/s.json")]) "#" exCycleRoot =
        ⟨.obj [("$ref", .str "https://example.com/s.json")], "#"⟩)
    ∧ ((refCandidates exCycleRoot exCycleRoot).length + 1 ≤ 9
      ∧ derefGo exCycleRoot 9 exCycleRoot "#" [] =
        derefGo exCycleRoot ((refCandidates exCycleRoot exCycleRoot).length + 1)
          exCycleRoot "#" []) :=
  ⟨⟨rfl, rfl, claim_C2.2.2.1 [("$ref", JsVal.str "https://example.com/s.json")]
      "https://example.com/s.json" "#" exCycleRoot rfl rfl⟩,
    ⟨by decide, claim_C2.2.2.2 exCycleRoot exCycleRoot "#" 9 (by decide)⟩⟩

/-- C4: a cache hit whose stored fingerprint equals the loaded schema's
fingerprint returns the cached validator instance with cache and warned
set untouched — and the result does not depend on the compiler at all,
so nothing is recompiled; on a miss or a fingerprint mismatch a new
validator is compiled and replaces the entry; a compilation failure
evicts the entry, returns no validator and warns, with warnings
surfaced once per distinct message. -/
theorem claim_C4 :
    ∀ (V : Type) (compile₁ compile₂ : JsVal → Except String V)
      (cache : List (String × CacheEntry V)) (warned : List String)
      (key : String) (schema : JsVal) (fingerprint : String),
    (∀ e, getAssoc cache key = some e → e.fingerprint = fingerprint →
      getValidator compile₁ cache warned key schema fingerprint = (some e.validator, cache, warned)
      ∧ getValidator compile₁ cache warned key schema fingerprint
        = getValidator compile₂ cache warned key schema fingerprint)
    ∧ (∀ v, compile₁ schema = .ok v →
      (getAssoc cache key = none ∨ (∃ e, getAssoc cache key = some e ∧ e.fingerprint ≠ fingerprint)) →
      getValidator compile₁ cache warned key schema fingerprint
        = (some v, setAssoc cache key ⟨fingerprint, v⟩, warned))
    ∧ (∀ msg, compile₁ schema = .error msg →
      (getAssoc cache key = none ∨ (∃ e, getAssoc cache key = some e ∧ e.fingerprint ≠ fingerprint)) →
      getValidator compile₁ cache warned key schema fingerprint
        = (none, eraseAssoc cache key,
            (warnOnce warned ("Invalid schema at " ++ key ++ ": " ++ msg)).1))
    ∧ (∀ w m, m ∉ w → warnOnce w m = (m :: w, true))
    ∧ (∀ w m, (warnOnce ((warnOnce w m).1) m).2 = false) := by
  intro V compile₁ compile₂ cache warned key schema fingerprint
  refine ⟨?_, ?_, ?_, ?_, ?_⟩
  · intro e he hf
    constructor
    · simp only [getValidator, he, hf, if_pos]
    · simp only [getValidator, he, hf, if_pos]
  · intro v hok hmiss
    rcases hmiss with hnone | ⟨e, he, hne⟩
    · simp only [getValidator, hnone, hok]
    · simp only [getValidator, he, if_neg hne, hok]
  · intro msg herr hmiss
    rcases hmiss with hnone | ⟨e, he, hne⟩
    · simp only [getValidator, hnone, herr]
    · simp only [getValidator, he, if_neg hne, herr]
  · intro w m hm
    simp only [warnOnce, if_neg hm]
  · intro w m
    by_cases hm : m ∈ w
    · simp [warnOnce, hm]
    · simp [warnOnce, hm]

/-- Witness for C4 with a concrete Nat-valued validator cache: a hit
returns the cached instance 7 unchanged for any compiler, and a
fingerprint mismatch recompiles to 5. -/
theorem claim_C4_witness :
    (getAssoc [("k", CacheEntry.mk "t1" (7 : Nat))] "k" = some (CacheEntry.mk "t1" 7)
      ∧ CacheEntry.fingerprint (V := Nat) (CacheEntry.mk "t1" 7) = "t1"
      ∧ getValidator (fun _ => .ok (5 : Nat)) [("k", CacheEntry.mk "t1" 7)] [] "k" .null "t1"
        = (some 7, [("k", CacheEntry.mk "t1" 7)], []))
    ∧ ((fun _ : JsVal => (Except.ok (5 : Nat) : Except String Nat)) .null = .ok 5
      ∧ getValidator (fun _ => .ok (5 : Nat)) [("k", CacheEntry.mk "t1" 7)] [] "k" .null "t2"
        = (some 5, [("k", CacheEntry.mk "t2" 5)], [])) := by
  refine ⟨⟨rfl, rfl, ?_⟩, ⟨rfl, ?_⟩⟩
  · exact ((claim_C4 Nat (fun _ => .ok 5) (fun _ => .ok 6) [("k", CacheEntry.mk "t1" 7)] []
      "k" .null "t1").1 (CacheEntry.mk "t1" 7) rfl rfl).1
  · exact (claim_C4 Nat (fun _ => .ok 5) (fun _ => .ok 6) [("k", CacheEntry.mk "t1" 7)] []
      "k" .null "t2").2.1 5 rfl (Or.inr ⟨CacheEntry.mk "t1" 7, rfl, by decide⟩)

/-- C6: an insight's severity is warning exactly when the error keyword
is `required` or `deprecated`; `required` errors carry
`Missing required property: X`, `enum` errors carry
`Value must be one of: ` with the JSON-stringified allowed values
joined by commas; the spec's missing-`name` scenario yields exactly one
warning insight at pointer `""` with that message. -/
theorem claim_C6 :
    (∀ error, ((insightOfError error).severity = Severity.warning ↔
      ((error.keyword).getD "schema" = "required" ∨ (error.keyword).getD "schema" = "deprecated")))
    ∧ (∀ error missing, error.keyword = some "required" →
      paramsProp error "missingProperty" = some (.str missing) →
      (insightOfError error).message = "Missing required property: " ++ missing)
    ∧ (∀ error, error.keyword = some "enum" →
      (insightOfError error).message =
        "Value must be one of: " ++ stringifyArray (paramsProp error "allowedValues"))
    ∧ buildInsightsFromErrors [exRequiredError] =
      [{ id := "::required::Missing required property: name"
         message := "Missing required property: name"
         pointer := ""
         path := []
         severity := Severity.warning
         keyword := "required" }]
    ∧ (buildInsightsFromErrors [exEnumError]).map (fun i => i.message) =
      ["Value must be one of: \"a\", \"b\""] := by
  refine ⟨?_, ?_, ?_, rfl, rfl⟩
  · intro error
    simp only [insightOfError]
    by_cases h : (error.keyword).getD "schema" = "required"
      ∨ (error.keyword).getD "schema" = "deprecated"
    · simp [h]
    · simp [h]
  · intro error missing hk hm
    simp only [insightOfError, formatErrorMessage, hk, hm]
  · intro error hk
    simp only [insightOfError]
    cases hm : paramsProp error "missingProperty" with
    | none => simp [formatErrorMessage, hk, hm]
    | some v => cases v <;> simp [formatErrorMessage, hk, hm]

/-- Witness for C6 on the concrete `required` and `enum` errors. -/
theorem claim_C6_witness :
    (ErrorObject.keyword exRequiredError = some "required"
      ∧ paramsProp exRequiredError "missingProperty" = some (.str "name")
      ∧ (insightOfError exRequiredError).message = "Missing required property: name")
    ∧ (ErrorObject.keyword exEnumError = some "enum"
      ∧ (insightOfError exEnumError).message =
        "Value must be one of: " ++ stringifyArray (paramsProp exEnumError "allowedValues")) :=
  ⟨⟨rfl, rfl, claim_C6.2.1 exRequiredError "name" rfl rfl⟩,
    ⟨rfl, claim_C6.2.2.1 exEnumError rfl⟩⟩

/-- C9: every diagnostic `validate` builds has severity Error and source
"JSON Schema", whatever the error's keyword; the required-to-warning
mapping applies to the insight list only, as the contrast on the
`required` error shows. -/
theorem claim_C9 :
    (∀ errors d, d ∈ validateDiagnostics errors →
      d.severity = Severity.error ∧ d.source = "JSON Schema")
    ∧ (createDiagnostic exRequiredError).severity = Severity.error
    ∧ (insightOfError exRequiredError).severity = Severity.warning := by
  refine ⟨?_, rfl, rfl⟩
  intro errors d hd
  unfold validateDiagnostics at hd
  obtain ⟨e, _, rfl⟩ := List.mem_map.mp hd
  exact ⟨rfl, rfl⟩

/-- Witness for C9 on the diagnostic of the concrete `required`
error. -/
theorem claim_C9_witness :
    createDiagnostic exRequiredError ∈ validateDiagnostics [exRequiredError]
    ∧ (createDiagnostic exRequiredError).severity = Severity.error
    ∧ (createDiagnostic exRequiredError).source = "JSON Schema" :=
  ⟨List.mem_map.mpr ⟨exRequiredError, List.mem_cons_self _ _, rfl⟩,
    claim_C9.1 [exRequiredError] (createDiagnostic exRequiredError)
      (List.mem_map.mpr ⟨exRequiredError, List.mem_cons_self _ _, rfl⟩)⟩

/-- C7: schema source resolution tries, in order, the embedded
`$schema` declaration, the association store's per-document assignment,
the `json.schemas` mappings, then the `jsonAtlas.schemas` mappings, the
first produced source winning; when none yields a source, at most one
de-duplicated warning per distinct document is surfaced (a repeat
resolves to the same warned set) and validation returns no
diagnostics. -/
theorem claim_C7 :
    ∀ (root : Option JsVal) (resolveRef : String → Option String) (assigned : Option String)
      (jsonConfigSource atlasSource : Option SchemaSource) (docUri docFsPath : String)
      (warned : List String),
    (∀ r u, getEmbeddedSchemaReference root = some r → r ≠ "" → resolveRef r = some u →
      resolveSchemaSource root resolveRef assigned jsonConfigSource atlasSource docUri docFsPath
        warned = (some (.uri u u), warned))
    ∧ (∀ a u, (∀ r, getEmbeddedSchemaReference root = some r → r = "" ∨ resolveRef r = none) →
      assigned = some a → a ≠ "" → resolveRef a = some u →
      resolveSchemaSource root resolveRef assigned jsonConfigSource atlasSource docUri docFsPath
        warned = (some (.uri u ("assignment:" ++ docUri)), warned))
    ∧ (∀ s, (∀ r, getEmbeddedSchemaReference root = some r → r = "" ∨ resolveRef r = none) →
      (∀ a, assigned = some a → a = "" ∨ resolveRef a = none) →
      jsonConfigSource = some s →
      resolveSchemaSource root resolveRef assigned jsonConfigSource atlasSource docUri docFsPath
        warned = (some s, warned))
    ∧ (∀ s, (∀ r, getEmbeddedSchemaReference root = some r → r = "" ∨ resolveRef r = none) →
      (∀ a, assigned = some a → a = "" ∨ resolveRef a = none) →
      jsonConfigSource = none → atlasSource = some s →
      resolveSchemaSource root resolveRef assigned jsonConfigSource atlasSource docUri docFsPath
        warned = (some s, warned))
    ∧ ((∀ r, getEmbeddedSchemaReference root = some r → r = "" ∨ resolveRef r = none) →
      (∀ a, assigned = some a → a = "" ∨ resolveRef a = none) →
      jsonConfigSource = none → atlasSource = none →
      resolveSchemaSource root resolveRef assigned jsonConfigSource atlasSource docUri docFsPath
        warned = (none, (warnOnce warned (noSchemaWarning docFsPath)).1)
      ∧ resolveSchemaSource root resolveRef assigned jsonConfigSource atlasSource docUri docFsPath
          ((warnOnce warned (noSchemaWarning docFsPath)).1)
        = (none, (warnOnce warned (noSchemaWarning docFsPath)).1))
    ∧ (∀ rest, pipelineStep (α := SchemaSource) none rest = []) := by
  intro root resolveRef assigned jsonConfigSource atlasSource docUri docFsPath warned
  have hembed : ∀ (h : ∀ r, getEmbeddedSchemaReference root = some r → r = "" ∨ resolveRef r = none),
      ((getEmbeddedSchemaReference root).bind fun r =>
        if r = "" then none else (resolveRef r).map fun u => SchemaSource.uri u u) = none := by
    intro h
    cases hge : getEmbeddedSchemaReference root with
    | none => rfl
    | some r =>
      rcases h r hge with hr | hr
      · simp [hr]
      · by_cases he : r = ""
        · simp [he]
        · simp [he, hr]
  have hassign : ∀ (h : ∀ a, assigned = some a → a = "" ∨ resolveRef a = none),
      (assigned.bind fun a =>
        if a = "" then none
        else (resolveRef a).map fun u => SchemaSource.uri u ("assignment:" ++ docUri)) = none := by
    intro h
    cases hga : assigned with
    | none => rfl
    | some a =>
      rcases h a hga with ha | ha
      · simp [ha]
      · by_cases he : a = ""
        · simp [he]
        · simp [he, ha]
  refine ⟨?_, ?_, ?_, ?_, ?_, fun rest => rfl⟩
  · intro r u hge hne hr
    simp only [resolveSchemaSource, hge, Option.some_bind, if_neg hne, hr, Option.map_some]
    rfl
  · intro a u hemb hga hne ha
    simp only [resolveSchemaSource, hembed hemb, hga, Option.none_orElse, Option.some_bind,
      if_neg hne, ha, Option.map_some]
    rfl
  · intro s hemb hass hjson
    simp only [resolveSchemaSource, hembed hemb, hassign hass, hjson, Option.none_orElse,
      Option.some_orElse]
  · intro s hemb hass hjson hatlas
    simp only [resolveSchemaSource, hembed hemb, hassign hass, hjson, hatlas, Option.none_orElse]
  · intro hemb hass hjson hatlas
    constructor
    · simp only [resolveSchemaSource, hembed hemb, hassign hass, hjson, hatlas,
        Option.none_orElse]
    · simp only [resolveSchemaSource, hembed hemb, hassign hass, hjson, hatlas,
        Option.none_orElse]
      by_cases hm : noSchemaWarning docFsPath ∈ warned
      · simp [warnOnce, hm]
      · simp [warnOnce, hm]

/-- Witness for C7: with an embedded declaration present and
resolvable, the embedded source wins over an assignment and both
configuration surfaces. -/
theorem claim_C7_witness :
    (getEmbeddedSchemaReference (some (.obj [("$schema", .str "./s.json")])) = some "./s.json"
      ∧ "./s.json" ≠ ""
      ∧ (fun _ : String => some "file:///w/s.json") "./s.json" = some "file:///w/s.json"
      ∧ resolveSchemaSource (some (.obj [("$schema", .str "./s.json")]))
          (fun _ => some "file:///w/s.json") (some "other.json")
          (some (.uri "file:///w/j.json" "file:///w/j.json"))
          (some (.uri "file:///w/a.json" "file:///w/a.json")) "file:///w/doc.json" "/w/doc.json" []
        = (some (.uri "file:///w/s.json" "file:///w/s.json"), []))
    ∧ pipelineStep (α := SchemaSource) none (fun _ => [Diagnostic.mk "m" Severity.error "src"])
      = [] := by
  refine ⟨⟨rfl, by decide, rfl, ?_⟩, ?_⟩
  · exact (claim_C7 (some (.obj [("$schema", .str "./s.json")]))
      (fun _ => some "file:///w/s.json") (some "other.json")
      (some (.uri "file:///w/j.json" "file:///w/j.json"))
      (some (.uri "file:///w/a.json" "file:///w/a.json")) "file:///w/doc.json" "/w/doc.json"
      []).1 "./s.json" "file:///w/s.json" rfl (by decide) rfl
  · exact (claim_C7 none (fun _ => none) none none none "" "" []).2.2.2.2.2
      (fun _ => [Diagnostic.mk "m" Severity.error "src"])

/-- C8: a 3xx response with a location is followed, consuming one of
the three redirect hops, and a redirect with no hops left fails with an
error carrying the 3xx status; any non-2xx, non-followed status fails
with `HTTP <status>`; a 2xx succeeds with the body; every load failure
yields no schema plus a once-per-message warning, and the validation
pass then returns no diagnostics. -/
theorem claim_C8 :
    (∀ world rr url, fetchRemoteSchema world rr url = fetchRemoteSchemaGo world rr 3 url)
    ∧ (∀ world rr rem url u' s loc, (world url).statusCode = some s → 300 ≤ s → s < 400 →
      (world url).location = some loc → loc ≠ "" → rr url loc = some u' →
      fetchRemoteSchemaGo world rr (rem + 1) url = fetchRemoteSchemaGo world rr rem u')
    ∧ (∀ world rr url s, (world url).statusCode = some s → 300 ≤ s → s < 400 →
      fetchRemoteSchemaGo world rr 0 url = .error ("HTTP " ++ jsNatToString s))
    ∧ (∀ world rr rem url s, (world url).statusCode = some s → s ≠ 0 → (s < 200 ∨ 400 ≤ s) →
      fetchRemoteSchemaGo world rr rem url = .error ("HTTP " ++ jsNatToString s))
    ∧ (∀ world rr rem url s, (world url).statusCode = some s → (world url).location = none →
      s ≠ 0 → (s < 200 ∨ 300 ≤ s) →
      fetchRemoteSchemaGo world rr rem url = .error ("HTTP " ++ jsNatToString s))
    ∧ (∀ world rr rem url s, (world url).statusCode = some s → 200 ≤ s → s < 300 →
      fetchRemoteSchemaGo world rr rem url = .ok (world url).body)
    ∧ (∀ warned uriStr e,
      (loadSchema warned uriStr (.error e)).1 = none
      ∧ ("Failed to load schema from " ++ uriStr ++ ": " ++ e) ∈ (loadSchema warned uriStr (.error e)).2
      ∧ (loadSchema ((loadSchema warned uriStr (.error e)).2) uriStr (.error e)).2
        = (loadSchema warned uriStr (.error e)).2)
    ∧ (∀ rest, pipelineStep (α := JsVal × String × String) none rest = []) := by
  refine ⟨fun world rr url => rfl, ?_, ?_, ?_, ?_, ?_, ?_, fun rest => rfl⟩
  · intro world rr rem url u' s loc hs h3 h4 hloc hne hrr
    conv_lhs => unfold fetchRemoteSchemaGo
    rw [hs, hloc]
    dsimp only
    rw [if_pos ⟨by omega, h3, h4, hne⟩, hrr]
  · intro world rr url s hs h3 h4
    unfold fetchRemoteSchemaGo
    cases hloc : (world url).location with
    | none =>
      rw [hs]
      dsimp only
      rw [if_pos ⟨by omega, by omega⟩]
    | some loc =>
      rw [hs]
      dsimp only
      rw [if_pos ⟨by omega, by omega⟩]
  · intro world rr rem url s hs hne hrange
    cases rem with
    | zero =>
      unfold fetchRemoteSchemaGo
      cases hloc : (world url).location <;>
        · rw [hs]
          dsimp only
          rw [if_pos ⟨hne, by omega⟩]
    | succ r =>
      unfold fetchRemoteSchemaGo
      cases hloc : (world url).location with
      | none =>
        rw [hs]
        dsimp only
        rw [if_pos ⟨hne, by omega⟩]
      | some loc =>
        rw [hs]
        dsimp only
        rw [if_neg (by intro h; omega), if_pos ⟨hne, by omega⟩]
  · intro world rr rem url s hs hloc hne hrange
    cases rem with
    | zero =>
      unfold fetchRemoteSchemaGo
      rw [hs, hloc]
      dsimp only
      rw [if_pos ⟨hne, hrange⟩]
    | succ r =>
      unfold fetchRemoteSchemaGo
      rw [hs, hloc]
      dsimp only
      rw [if_pos ⟨hne, hrange⟩]
  · intro world rr rem url s hs h2 h3
    cases rem with
    | zero =>
      unfold fetchRemoteSchemaGo
      cases hloc : (world url).location <;>
        · rw [hs]
          dsimp only
          rw [if_neg (by intro h; omega)]
    | succ r =>
      unfold fetchRemoteSchemaGo
      cases hloc : (world url).location with
      | none =>
        rw [hs]
        dsimp only
        rw [if_neg (by intro h; omega)]
      | some loc =>
        rw [hs]
        dsimp only
        rw [if_neg (by intro h; omega), if_neg (by intro h; omega)]
  · intro warned uriStr e
    refine ⟨rfl, ?_, ?_⟩
    · show ("Failed to load schema from " ++ uriStr ++ ": " ++ e)
        ∈ (warnOnce warned ("Failed to load schema from " ++ uriStr ++ ": " ++ e)).1
      unfold warnOnce
      by_cases hm : ("Failed to load schema from " ++ uriStr ++ ": " ++ e) ∈ warned
      · simp [hm]
      · simp [hm]
    · show (warnOnce ((warnOnce warned ("Failed to load schema from " ++ uriStr ++ ": " ++ e)).1)
          ("Failed to load schema from " ++ uriStr ++ ": " ++ e)).1
        = (warnOnce warned ("Failed to load schema from " ++ uriStr ++ ": " ++ e)).1
      by_cases hm : ("Failed to load schema from " ++ uriStr ++ ": " ++ e) ∈ warned
      · simp [warnOnce, hm]
      · simp [warnOnce, hm]

/-- Witness for C8 on a concrete two-world network: one redirect from
`http://a` to `http://b` succeeds with the body of `b`; a fourth
consecutive redirect fails `HTTP 301`; a 404 fails `HTTP 404`. -/
theorem claim_C8_witness :
    ((fun u => if u = "http://a" then HttpResponse.mk (some 301) (some "http://b") []
        else HttpResponse.mk (some 200) none [42]) "http://a"
      = HttpResponse.mk (some 301) (some "http://b") []
      ∧ fetchRemoteSchemaGo
          (fun u => if u = "http://a" then HttpResponse.mk (some 301) (some "http://b") []
            else HttpResponse.mk (some 200) none [42])
          (fun _ loc => some loc) 3 "http://a"
        = fetchRemoteSchemaGo
          (fun u => if u = "http://a" then HttpResponse.mk (some 301) (some "http://b") []
            else HttpResponse.mk (some 200) none [42])
          (fun _ loc => some loc) 2 "http://b")
    ∧ fetchRemoteSchemaGo (fun _ => HttpResponse.mk (some 301) (some "http://c") [])
        (fun _ loc => some loc) 0 "http://a" = .error "HTTP 301"
    ∧ fetchRemoteSchemaGo (fun _ => HttpResponse.mk (some 404) none [])
        (fun _ loc => some loc) 3 "http://a" = .error "HTTP 404" := by
  refine ⟨⟨rfl, ?_⟩, ?_, ?_⟩
  · exact claim_C8.2.1
      (fun u => if u = "http://a" then HttpResponse.mk (some 301) (some "http://b") []
        else HttpResponse.mk (some 200) none [42])
      (fun _ loc => some loc) 2 "http://a" "http://b" 301 "http://b"
      rfl (by decide) (by decide) rfl (by decide) rfl
  · exact claim_C8.2.2.1 (fun _ => HttpResponse.mk (some 301) (some "http://c") [])
      (fun _ loc => some loc) "http://a" 301 rfl (by decide) (by decide)
  · exact claim_C8.2.2.2.1 (fun _ => HttpResponse.mk (some 404) none [])
      (fun _ loc => some loc) 3 "http://a" 404 rfl (by decide) (by decide)

end JsonAtlas
